import Mathlib

/-!
# Verification of the MAAS node lifecycle / allocation core

Shallow embedding of the lifecycle-relevant parts of
`src/maasserver/api.py` (node status transitions, release, accept,
acquire, the commissioning timeout sweep, MAC registration queries).
The persisted `Node` rows are modelled as a list of records (`Fleet`);
Django ORM queries on those rows are translated into list filters and
maps.  Parts of the model layer (`maasserver.models`) that the handlers
call but that are not part of the sources here are modelled from the
specification and marked as such in their doc comments.
-/

namespace Maas

/-- The node status enum (`NODE_STATUS` in the source): Declared,
Commissioning, FailedTests, Ready, Allocated, Reserved, Retired. -/
inductive NodeStatus where
  | declared
  | commissioning
  | failedTests
  | ready
  | allocated
  | reserved
  | retired
deriving DecidableEq, Repr

/-- Modelled from the spec: the display string of a node status, as used
in error messages (`node.display_status()` lives in the missing model
layer; the spec names the statuses Declared, Commissioning, FailedTests,
Ready, Allocated, Reserved, Retired). -/
def NodeStatus.display : NodeStatus → String
  | .declared => "Declared"
  | .commissioning => "Commissioning"
  | .failedTests => "Failed tests"
  | .ready => "Ready"
  | .allocated => "Allocated"
  | .reserved => "Reserved"
  | .retired => "Retired"

/-- A persisted node record.  `updated` is the `updated_at` timestamp,
modelled as an integer number of minutes (the sweep compares it against
`now - timedelta(minutes=COMMISSIONING_TIMEOUT)`). -/
structure Node where
  system_id : String
  hostname : String
  status : NodeStatus
  owner : Option String
  netboot : Bool
  architecture : String
  updated : Int
deriving DecidableEq, Repr

/-- A MAC address row (`MACAddress` model): a MAC string attached to a
node by its system id. -/
structure MacLink where
  mac_address : String
  node_system_id : String
deriving DecidableEq, Repr

/-- The durable store the handlers operate on: the list of node rows. -/
structure Fleet where
  nodes : List Node
deriving DecidableEq, Repr

/-- The error kinds the handlers raise (taxonomy of spec §7, matching
the exception classes raised in `api.py`). -/
inductive ApiError where
  | nodeStateViolation (msg : String)
  | nodesNotAvailable (msg : String)
  | maasAPIBadRequest (msg : String)
  | permissionDenied (msg : String)
  | unauthorized (msg : String)
deriving DecidableEq, Repr

/-- Modelled from the spec: `Node.release` of the missing model layer
\"clears owner and sets Ready\". -/
def Node.release (n : Node) : Node :=
  { n with owner := none, status := .ready }

/-- Handler `NodeHandler.release` (api.py:525-540): case on the current node status.
Ready is a no-op success; Allocated/Reserved clear the owner and become
Ready via `node.release()`; anything else raises `NodeStateViolation`
carrying the display status. -/
def releaseNode (n : Node) : Except ApiError Node :=
  if n.status = .ready then
    .ok n
  else if n.status = .allocated ∨ n.status = .reserved then
    .ok n.release
  else
    .error (.nodeStateViolation
      ("Node cannot be released in its current state (\x27" ++
        n.status.display ++ "\x27)."))

/-- Persisting a modified node row: every row whose `system_id` matches
is replaced (system ids are unique in a well-formed fleet, so this is
the ORM `save()`). -/
def saveNode (f : Fleet) (n' : Node) : Fleet :=
  ⟨f.nodes.map (fun n => if n.system_id = n'.system_id then n' else n)⟩

/-- Comma-join over a list of strings (the Python join with a comma separator). -/
def joinComma : List String → String
  | [] => ""
  | [s] => s
  | s :: rest => s ++ ", " ++ joinComma rest

/-- Modelled from the spec: `Node.accept_enlistment` of the missing
model layer transitions Declared→Ready and returns the node; an
already-accepted (Ready) node is silently skipped, returning nothing;
any other state is an error (\"accepting one that is already allocated,
broken, etc. is\" an error, per the handler docstring). -/
def accept_enlistment (n : Node) : Except ApiError (Option Node) :=
  if n.status = .declared then
    .ok (some { n with status := .ready })
  else if n.status = .ready then
    .ok none
  else
    .error (.nodeStateViolation
      ("Cannot accept node enlistment: node " ++ n.system_id ++
        " is in state " ++ n.status.display ++ "."))

/-- The list comprehension
`filter(None, [node.accept_enlistment(request.user) for node in nodes])`:
each call saves its node into the store, and the non-skipped (changed)
nodes are collected in order. -/
def processAccept (f : Fleet) : List Node → Except ApiError (Fleet × List Node)
  | [] => .ok (f, [])
  | n :: rest =>
    match accept_enlistment n with
    | .error e => .error e
    | .ok none => processAccept f rest
    | .ok (some n') =>
      match processAccept (saveNode f n') rest with
      | .error e => .error e
      | .ok (f', changed) => .ok (f', n' :: changed)

/-- The `MAASAPIBadRequest` message of `accept`, over the unknown ids. -/
def unknownNodesMsg (l : List String) : String :=
  "Unknown node(s): " ++ joinComma l ++ "."

/-- The `PermissionDenied` message of `accept`, over the denied ids. -/
def permissionDeniedMsg (l : List String) : String :=
  "You don\x27t have the required permission to accept the " ++
    "following node(s): " ++ joinComma l ++ "."

/-- Handler `NodesHandler.accept` (api.py:651-687).  `system_ids` is the set of
requested ids; `existing_ids` is built from `Node.objects.filter()` —
i.e. from ALL nodes in the store, exactly as the source has it.  The
permission filter `Node.objects.get_nodes(user, ADMIN, ids=...)` is
modelled from the Authorization collaborator of the spec as the nodes among
the requested ids on which `canAdmin` holds. -/
def acceptNodes (canAdmin : String → Node → Bool) (user : String)
    (ids : List String) (f : Fleet) : Except ApiError (Fleet × List Node) :=
  let system_ids := ids.dedup
  let existing_ids := (f.nodes.map (·.system_id)).dedup
  if existing_ids.length < system_ids.length then
    .error (.maasAPIBadRequest
      (unknownNodesMsg (system_ids.filter (fun i => ¬ i ∈ existing_ids))))
  else
    let nodes := f.nodes.filter
      (fun n => system_ids.contains n.system_id && canAdmin user n)
    let okIds := nodes.map (·.system_id)
    if nodes.length < system_ids.length then
      .error (.permissionDenied
        (permissionDeniedMsg (system_ids.filter (fun i => ¬ i ∈ okIds))))
    else
      processAccept f nodes

/-- Handler `AnonNodesHandler.accept` (api.py:593-596): anonymous acceptance is
unconditionally rejected. -/
def anonAccept (ids : List String) (f : Fleet) :
    Except ApiError (Fleet × List Node) :=
  .error (.unauthorized "You must be logged in to accept nodes.")

/-- Handler `AnonNodesHandler.check_commissioning` (api.py:598-611): every node
with status Commissioning and `updated <= now - timeout` is moved to
FailedTests by one bulk field update (the queryset `update()` touches
only the status column and invokes no per-node `save()`). -/
def check_commissioning (commissioning_timeout now : Int) (f : Fleet) : Fleet :=
  let cutoff := now - commissioning_timeout
  ⟨f.nodes.map (fun n =>
    if n.status = .commissioning ∧ n.updated ≤ cutoff then
      { n with status := .failedTests }
    else n)⟩

/-- Handler `AnonNodesHandler.is_registered` (api.py:578-591):
`MACAddress.objects.filter(mac_address=...).exclude(node__status=RETIRED).exists()`.
The `node__status` join resolves the node row of each link by system id. -/
def is_registered (links : List MacLink) (f : Fleet)
    (mac_address : String) : Bool :=
  links.any (fun l =>
    l.mac_address == mac_address &&
      match f.nodes.find? (fun n => n.system_id == l.node_system_id) with
      | some n => !(n.status == .retired)
      | none => false)

/-- The allocation constraint value object: only a `name` filter exists. -/
structure AllocationConstraint where
  name : Option String
deriving DecidableEq, Repr

/-- Function `extract_constraints` (api.py:618-630): reads only the `name`
parameter; absent → empty constraint dict, present → a `name` entry. -/
def extract_constraints (name_param : Option String) : AllocationConstraint :=
  match name_param with
  | none => ⟨none⟩
  | some nm => ⟨some nm⟩

/-- Whether a node satisfies the constraint: absent name matches all,
a present name requires equality with the node hostname. -/
def matchesConstraint (c : AllocationConstraint) (n : Node) : Bool :=
  match c.name with
  | none => true
  | some nm => n.hostname == nm

/-- Modelled from the spec:
`Node.objects.get_available_node_for_acquisition(user, constraints)` of
the missing model layer returns one node with status Ready, visible to
the requester, satisfying the constraints — or nothing.  The pick among
multiple matches is the first in iteration order. -/
def get_available_node_for_acquisition (canView : String → Node → Bool)
    (user : String) (c : AllocationConstraint) (f : Fleet) : Option Node :=
  (f.nodes.filter (fun n =>
    (n.status == .ready) && canView user n && matchesConstraint c n)).head?

/-- Modelled from the spec: `Node.acquire` of the missing model layer
sets `owner = requester` and `status = Allocated`. -/
def Node.acquire (n : Node) (user : String) : Node :=
  { n with owner := some user, status := .allocated }

/-- Handler `NodesHandler.acquire` (api.py:718-726): select an available node
for the constraints extracted from the request; none → `NodesNotAvailable`;
otherwise acquire it and return it. -/
def acquireNode (canView : String → Node → Bool) (user : String)
    (name_param : Option String) (f : Fleet) : Except ApiError (Fleet × Node) :=
  match get_available_node_for_acquisition canView user
      (extract_constraints name_param) f with
  | none => .error (.nodesNotAvailable "No matching node is available.")
  | some node =>
    let node' := node.acquire user
    .ok (saveNode f node', node')

/-- Creating a node row from enlistment attributes (`create_node`,
api.py:543-558): the node starts in Declared with no owner. -/
def create_node (sid hostname arch : String) (now : Int) : Node :=
  { system_id := sid, hostname := hostname, status := .declared,
    owner := none, netboot := true, architecture := arch, updated := now }

/-- Handler `NodesHandler.new` (api.py:639-649): create the node; a superuser
actor immediately accepts the enlistment (auto-accept to Ready). -/
def newNode (is_superuser : Bool) (sid hostname arch : String) (now : Int)
    (f : Fleet) : Except ApiError (Fleet × Node) :=
  let n := create_node sid hostname arch now
  let f1 : Fleet := ⟨f.nodes ++ [n]⟩
  if is_superuser then
    match accept_enlistment n with
    | .error e => .error e
    | .ok none => .ok (f1, n)
    | .ok (some n') => .ok (saveNode f1 n', n')
  else
    .ok (f1, n)

/-- Extra error kind for `get_node_or_404` misses. -/
def ApiError.http404 : ApiError := .maasAPIBadRequest "No Node matches the given query."

/-- Handler `NodeHandler.release` at the fleet level: resolve the node by id
(404 when absent, `PermissionDenied` without edit permission), apply the
per-node release, and persist the result. -/
def releaseHandler (canEdit : String → Node → Bool) (user : String)
    (sid : String) (f : Fleet) : Except ApiError (Fleet × Node) :=
  match f.nodes.find? (fun n => n.system_id == sid) with
  | none => .error ApiError.http404
  | some n =>
    if canEdit user n then
      match releaseNode n with
      | .error e => .error e
      | .ok n' => .ok (saveNode f n', n')
    else
      .error (.permissionDenied "No permission to edit this node.")

/-- Modelled from the spec: `Node.objects.start_nodes` / `stop_nodes`
authorize and trigger the external power-control collaborator, returning
the authorized nodes; the handler raises `PermissionDenied` when none
are (api.py:494-523).  Node records are unchanged. -/
def startStopNodes (canEdit : String → Node → Bool) (user : String)
    (ids : List String) (f : Fleet) : Except ApiError (Fleet × List Node) :=
  let nodes := f.nodes.filter
    (fun n => ids.contains n.system_id && canEdit user n)
  if nodes.length = 0 then
    .error (.permissionDenied "You are not allowed to power-control this node.")
  else
    .ok (f, nodes)

/-- The operations of the lifecycle core, as one command type. -/
inductive Op where
  | enlist (is_superuser : Bool) (sid hostname arch : String) (now : Int)
  | accept (canAdmin : String → Node → Bool) (user : String) (ids : List String)
  | acquire (canView : String → Node → Bool) (user : String) (name_param : Option String)
  | release (canEdit : String → Node → Bool) (user : String) (sid : String)
  | sweep (commissioning_timeout now : Int)
  | start (canEdit : String → Node → Bool) (user : String) (ids : List String)
  | stop (canEdit : String → Node → Bool) (user : String) (ids : List String)

/-- Running one lifecycle operation against the store. -/
def applyOp : Op → Fleet → Except ApiError Fleet
  | .enlist su sid h a now, f => (newNode su sid h a now f).map Prod.fst
  | .accept ca u ids, f => (acceptNodes ca u ids f).map Prod.fst
  | .acquire cv u np, f => (acquireNode cv u np f).map Prod.fst
  | .release ce u sid, f => (releaseHandler ce u sid f).map Prod.fst
  | .sweep t now, f => .ok (check_commissioning t now f)
  | .start ce u ids, f => (startStopNodes ce u ids f).map Prod.fst
  | .stop ce u ids, f => (startStopNodes ce u ids f).map Prod.fst

/-- The per-node ownership invariant: `owner` is non-null iff the status
is Allocated or Reserved. -/
def ownerInv (n : Node) : Prop :=
  n.owner.isSome = true ↔ (n.status = .allocated ∨ n.status = .reserved)

/-- The invariant over the whole store. -/
def fleetInv (f : Fleet) : Prop := ∀ n ∈ f.nodes, ownerInv n

/-! ## Sample records used by the witnesses -/

/-- A sample node, Allocated to a user. -/
def sampleAllocated : Node :=
  { system_id := "node-1", hostname := "host1", status := .allocated,
    owner := some "user1", netboot := true, architecture := "amd64",
    updated := 0 }

/-- A sample node in Declared state. -/
def mkDeclared (sid : String) : Node :=
  { system_id := sid, hostname := "host-" ++ sid, status := .declared,
    owner := none, netboot := true, architecture := "amd64", updated := 0 }

/-- A sample node in Ready state. -/
def mkReady (sid : String) : Node :=
  { system_id := sid, hostname := "host-" ++ sid, status := .ready,
    owner := none, netboot := true, architecture := "amd64", updated := 0 }

/-- A sample node in Commissioning state with a given timestamp. -/
def mkCommissioning (sid : String) (upd : Int) : Node :=
  { system_id := sid, hostname := "host-" ++ sid, status := .commissioning,
    owner := none, netboot := true, architecture := "amd64", updated := upd }

/-! ## C1: release case analysis -/

/-- C1: `release` behaves by case on the current node status.  Ready
is a no-op success — in particular any node returned by a successful
release can be released again with no state change.  Allocated or
Reserved clears the owner and sets Ready, all other fields kept.  Any
other status (Declared, Commissioning, FailedTests, Retired) fails with
`NodeStateViolation` carrying the current display status in the message,
and no updated node is produced. -/
theorem release_case_analysis (n : Node) :
    (n.status = .ready → releaseNode n = .ok n) ∧
    (n.status = .allocated ∨ n.status = .reserved →
      releaseNode n = .ok { n with owner := none, status := .ready }) ∧
    (n.status = .declared ∨ n.status = .commissioning ∨
        n.status = .failedTests ∨ n.status = .retired →
      releaseNode n = .error (.nodeStateViolation
        ("Node cannot be released in its current state (\x27" ++
          n.status.display ++ "\x27)."))) ∧
    (∀ n', releaseNode n = .ok n' → releaseNode n' = .ok n') := by
  refine ⟨?_, ?_, ?_, ?_⟩
  · intro h; simp [releaseNode, h]
  · intro h
    rcases h with h | h <;> simp [releaseNode, Node.release, h]
  · intro h
    rcases h with h | h | h | h <;> simp [releaseNode, h]
  · intro n' h
    unfold releaseNode at h ⊢
    by_cases hr : n.status = .ready
    · simp [hr] at h
      simp [← h, hr]
    · by_cases ha : n.status = .allocated ∨ n.status = .reserved
      · simp [hr, ha, Node.release] at h
        simp [← h]
      · simp [hr, ha] at h

/-- Witness for C1: releasing the sample Allocated node clears its owner
and sets it Ready. -/
theorem release_case_analysis_witness :
    releaseNode sampleAllocated =
      .ok { sampleAllocated with owner := none, status := .ready } :=
  (release_case_analysis sampleAllocated).2.1 (Or.inl rfl)

/-! ## C10: anonymous accept is always rejected -/

/-- C10: the anonymous `accept` operation unconditionally fails with
`Unauthorized`, whatever the ids and the store, and produces no updated
store. -/
theorem anonAccept_always_unauthorized (ids : List String) (f : Fleet) :
    anonAccept ids f =
      .error (.unauthorized "You must be logged in to accept nodes.") :=
  rfl

/-! ## C6: the commissioning timeout sweep -/

/-- C6: the sweep keeps the store the same length and, position by
position, turns a node into the same record with status FailedTests
exactly when its status is Commissioning and its `updated` timestamp is
at or before `now - timeout`; every other node is returned unchanged. -/
theorem check_commissioning_exact (t now : Int) (f : Fleet) (i : Nat)
    (h : i < f.nodes.length) :
    ∃ h2 : i < (check_commissioning t now f).nodes.length,
      ((f.nodes.get ⟨i, h⟩).status = .commissioning ∧
          (f.nodes.get ⟨i, h⟩).updated ≤ now - t →
        (check_commissioning t now f).nodes.get ⟨i, h2⟩ =
          { f.nodes.get ⟨i, h⟩ with status := .failedTests }) ∧
      (¬((f.nodes.get ⟨i, h⟩).status = .commissioning ∧
          (f.nodes.get ⟨i, h⟩).updated ≤ now - t) →
        (check_commissioning t now f).nodes.get ⟨i, h2⟩ =
          f.nodes.get ⟨i, h⟩) := by
  have hlen : (check_commissioning t now f).nodes.length = f.nodes.length :=
    List.length_map _ _
  refine ⟨by rw [hlen]; exact h, ?_, ?_⟩ <;> intro hc <;>
    simp only [List.get_eq_getElem] at hc ⊢
  · simp [check_commissioning, List.getElem_map, hc.1, hc.2]
  · simp [check_commissioning, List.getElem_map]
    intro h1 h2
    exact absurd ⟨h1, h2⟩ hc

/-- Witness for C6: a sweep with a 30-minute timeout at time 100 over a
two-node store moves the stale Commissioning node (updated at 10) to
FailedTests. -/
theorem check_commissioning_exact_witness :
    ∃ h2 : 0 < (check_commissioning 30 100
        ⟨[mkCommissioning "n1" 10, mkCommissioning "n2" 95]⟩).nodes.length,
      (check_commissioning 30 100
          ⟨[mkCommissioning "n1" 10, mkCommissioning "n2" 95]⟩).nodes.get
          ⟨0, h2⟩ =
        { mkCommissioning "n1" 10 with status := .failedTests } := by
  obtain ⟨h2, hyes, -⟩ := check_commissioning_exact 30 100
    ⟨[mkCommissioning "n1" 10, mkCommissioning "n2" 95]⟩ 0 (by decide)
  exact ⟨h2, hyes (by constructor <;> decide)⟩

/-! ## Acquisition: helper lemmas -/

/-- The filter `acquire` selects candidates with: Ready, visible,
matching the constraints. -/
def isCandidate (canView : String → Node → Bool) (user : String)
    (np : Option String) (n : Node) : Bool :=
  (n.status == .ready) && canView user n &&
    matchesConstraint (extract_constraints np) n

theorem isCandidate_iff (cv : String → Node → Bool) (user : String)
    (np : Option String) (n : Node) :
    isCandidate cv user np n = true ↔
      n.status = .ready ∧ cv user n = true ∧
        matchesConstraint (extract_constraints np) n = true := by
  simp [isCandidate, Bool.and_eq_true, and_assoc]

theorem mem_saveNode {f : Fleet} {n' x : Node}
    (hx : x ∈ (saveNode f n').nodes) :
    x = n' ∨ (x ∈ f.nodes ∧ x.system_id ≠ n'.system_id) := by
  simp only [saveNode, List.mem_map] at hx
  obtain ⟨m, hm, hval⟩ := hx
  by_cases hid : m.system_id = n'.system_id
  · left; simp [hid] at hval; exact hval.symm
  · right; simp [hid] at hval; exact ⟨hval ▸ hm, hval ▸ hid⟩

theorem acquire_error_iff (cv : String → Node → Bool) (user : String)
    (np : Option String) (f : Fleet) :
    acquireNode cv user np f =
        .error (.nodesNotAvailable "No matching node is available.") ↔
      ∀ n ∈ f.nodes, isCandidate cv user np n = false := by
  unfold acquireNode get_available_node_for_acquisition
  cases hh : (f.nodes.filter (fun n =>
      (n.status == .ready) && cv user n &&
        matchesConstraint (extract_constraints np) n)).head? with
  | none =>
    simp only [hh]
    rw [List.head?_eq_none_iff, List.filter_eq_nil_iff] at hh
    simp only [isCandidate]
    constructor
    · intro _ n hn
      exact Bool.not_eq_true _ |>.mp (hh n hn)
    · intro _; trivial
  | some n =>
    simp only [hh]
    have hmem : n ∈ f.nodes.filter (fun n =>
        (n.status == .ready) && cv user n &&
          matchesConstraint (extract_constraints np) n) :=
      List.mem_of_mem_head? (hh ▸ Option.mem_def.mpr rfl)
    rw [List.mem_filter] at hmem
    constructor
    · intro habs; cases habs
    · intro hall
      have := hall n hmem.1
      rw [show isCandidate cv user np n =
        ((n.status == .ready) && cv user n &&
          matchesConstraint (extract_constraints np) n) from rfl] at this
      rw [hmem.2] at this
      cases this

theorem acquire_ok_elim {cv : String → Node → Bool} {user : String}
    {np : Option String} {f f' : Fleet} {n' : Node}
    (h : acquireNode cv user np f = .ok (f', n')) :
    ∃ n ∈ f.nodes, isCandidate cv user np n = true ∧
      n' = n.acquire user ∧ f' = saveNode f n' := by
  unfold acquireNode get_available_node_for_acquisition at h
  cases hh : (f.nodes.filter (fun n =>
      (n.status == .ready) && cv user n &&
        matchesConstraint (extract_constraints np) n)).head? with
  | none => rw [hh] at h; cases h
  | some n =>
    rw [hh] at h
    simp only [Except.ok.injEq, Prod.mk.injEq] at h
    have hmem : n ∈ f.nodes.filter (fun n =>
        (n.status == .ready) && cv user n &&
          matchesConstraint (extract_constraints np) n) :=
      List.mem_of_mem_head? (hh ▸ Option.mem_def.mpr rfl)
    rw [List.mem_filter] at hmem
    exact ⟨n, hmem.1, hmem.2, h.2.symm, by rw [h.1.symm, h.2]⟩

theorem acquire_unique_ok {cv : String → Node → Bool} {r : String}
    {np : Option String} {f : Fleet} {u : Node}
    (hu : u ∈ f.nodes) (hc : isCandidate cv r np u = true)
    (huniq : ∀ n ∈ f.nodes, isCandidate cv r np n = true → n = u) :
    acquireNode cv r np f = .ok (saveNode f (u.acquire r), u.acquire r) := by
  have humem : u ∈ f.nodes.filter (fun n =>
      (n.status == .ready) && cv r n &&
        matchesConstraint (extract_constraints np) n) :=
    List.mem_filter.mpr ⟨hu, hc⟩
  unfold acquireNode get_available_node_for_acquisition
  cases hh : (f.nodes.filter (fun n =>
      (n.status == .ready) && cv r n &&
        matchesConstraint (extract_constraints np) n)) with
  | nil => rw [hh] at humem; cases humem
  | cons a t =>
    have hamem : a ∈ f.nodes.filter (fun n =>
        (n.status == .ready) && cv r n &&
          matchesConstraint (extract_constraints np) n) :=
      hh ▸ List.mem_cons_self a t
    rw [List.mem_filter] at hamem
    have haeq : a = u := huniq a hamem.1 hamem.2
    subst haeq
    simp [List.head?_cons]

/-! ## C3: acquire candidate selection and effect -/

/-- C3: `acquire` fails with `NodesNotAvailable` precisely when no node
in the store is Ready, visible to the requester and matching the name
constraint (an absent name matches everything; the only request
parameter read is `name`); and any success returns a node that was such
a candidate, now with `owner` the requester and status Allocated, the
store updated accordingly. -/
theorem acquire_characterization (cv : String → Node → Bool)
    (user : String) (np : Option String) (f : Fleet) :
    (acquireNode cv user np f =
        .error (.nodesNotAvailable "No matching node is available.") ↔
      ∀ n ∈ f.nodes, ¬(n.status = .ready ∧ cv user n = true ∧
        matchesConstraint (extract_constraints np) n = true)) ∧
    (∀ f' n', acquireNode cv user np f = .ok (f', n') →
      ∃ n ∈ f.nodes, n.status = .ready ∧ cv user n = true ∧
        matchesConstraint (extract_constraints np) n = true ∧
        n' = { n with owner := some user, status := .allocated } ∧
        f' = saveNode f n') := by
  constructor
  · rw [acquire_error_iff]
    constructor
    · intro hall n hn
      rw [← isCandidate_iff cv user np n]
      simp [hall n hn]
    · intro hall n hn
      have := hall n hn
      rw [← isCandidate_iff cv user np n] at this
      simp [this]
  · intro f' n' h
    obtain ⟨n, hn, hc, hn', hf'⟩ := acquire_ok_elim h
    rw [isCandidate_iff] at hc
    exact ⟨n, hn, hc.1, hc.2.1, hc.2.2, hn', hf'⟩

/-- Witness for C3: on a one-node Ready store, acquisition by "alice"
succeeds and the success case exhibits the candidate. -/
theorem acquire_characterization_witness :
    ∃ n ∈ (⟨[mkReady "n1"]⟩ : Fleet).nodes, n.status = .ready ∧
      (fun (_ : String) (_ : Node) => true) "alice" n = true ∧
      matchesConstraint (extract_constraints none) n = true ∧
      (mkReady "n1").acquire "alice" =
        { n with owner := some "alice", status := .allocated } ∧
      saveNode ⟨[mkReady "n1"]⟩ ((mkReady "n1").acquire "alice") =
        saveNode ⟨[mkReady "n1"]⟩ ((mkReady "n1").acquire "alice") :=
  (acquire_characterization (fun _ _ => true) "alice" none
    ⟨[mkReady "n1"]⟩).2
    (saveNode ⟨[mkReady "n1"]⟩ ((mkReady "n1").acquire "alice"))
    ((mkReady "n1").acquire "alice") rfl

/-! ## C4: exclusivity of acquisition -/

/-- C4: under the serialized execution that the concurrency model of the spec
prescribes (every acquisition is an atomic read-modify-write), two
`acquire` calls never allocate the same node: whenever a second call
runs against the store the first produced, the nodes returned differ in
`system_id`.  Moreover with exactly one candidate node, the first call
succeeds in allocating it and the second fails with
`NodesNotAvailable`. -/
theorem acquire_exclusive :
    (∀ cv1 r1 np1 cv2 r2 np2 (f f1 f2 : Fleet) (n1 n2 : Node),
      acquireNode cv1 r1 np1 f = .ok (f1, n1) →
      acquireNode cv2 r2 np2 f1 = .ok (f2, n2) →
      n1.system_id ≠ n2.system_id) ∧
    (∀ cv1 r1 np1 cv2 r2 np2 (f : Fleet) (u : Node),
      u ∈ f.nodes →
      isCandidate cv1 r1 np1 u = true →
      (∀ n ∈ f.nodes, isCandidate cv1 r1 np1 n = true → n = u) →
      (∀ n ∈ f.nodes, isCandidate cv2 r2 np2 n = true → n = u) →
      acquireNode cv1 r1 np1 f =
          .ok (saveNode f (u.acquire r1), u.acquire r1) ∧
      acquireNode cv2 r2 np2 (saveNode f (u.acquire r1)) =
          .error (.nodesNotAvailable "No matching node is available.")) := by
  constructor
  · intro cv1 r1 np1 cv2 r2 np2 f f1 f2 n1 n2 h1 h2 heq
    obtain ⟨m1, hm1, hc1, hn1, hf1⟩ := acquire_ok_elim h1
    obtain ⟨m2, hm2, hc2, hn2, hf2⟩ := acquire_ok_elim h2
    have hm2ready : m2.status = .ready := ((isCandidate_iff _ _ _ _).mp hc2).1
    have hn1alloc : n1.status = .allocated := by rw [hn1]; rfl
    have hm2id : m2.system_id = n1.system_id := by
      have : n2.system_id = m2.system_id := by rw [hn2]; rfl
      rw [← this, ← heq]
    rw [hf1] at hm2
    rcases mem_saveNode hm2 with hcase | hcase
    · rw [hcase] at hm2ready
      rw [hm2ready] at hn1alloc
      cases hn1alloc
    · exact hcase.2 hm2id
  · intro cv1 r1 np1 cv2 r2 np2 f u hu hc huniq1 huniq2
    refine ⟨acquire_unique_ok hu hc huniq1, ?_⟩
    rw [acquire_error_iff]
    intro x hx
    rcases mem_saveNode hx with hcase | hcase
    · rw [hcase]
      simp [isCandidate, Node.acquire]
    · by_contra habs
      have hxc : isCandidate cv2 r2 np2 x = true :=
        Bool.not_eq_false _ |>.mp habs
      have : x = u := huniq2 x hcase.1 hxc
      exact hcase.2 (by rw [this]; rfl)

/-- Witness for C4: a two-node store with one Ready node: the first
acquisition takes it and the second fails. -/
theorem acquire_exclusive_witness :
    acquireNode (fun _ _ => true) "alice" none
        ⟨[mkReady "n1", mkDeclared "n2"]⟩ =
      .ok (saveNode ⟨[mkReady "n1", mkDeclared "n2"]⟩
          ((mkReady "n1").acquire "alice"),
        (mkReady "n1").acquire "alice") ∧
    acquireNode (fun _ _ => true) "bob" none
        (saveNode ⟨[mkReady "n1", mkDeclared "n2"]⟩
          ((mkReady "n1").acquire "alice")) =
      .error (.nodesNotAvailable "No matching node is available.") :=
  acquire_exclusive.2 (fun _ _ => true) "alice" none
    (fun _ _ => true) "bob" none
    ⟨[mkReady "n1", mkDeclared "n2"]⟩ (mkReady "n1")
    (by simp) (by decide)
    (by decide)
    (by decide)

/-! ## C9: MAC registration query -/

/-- C9: `is_registered` answers true exactly when some MacLink carries
the queried address and the node it is attached to is not Retired
(system ids assumed unique, as the data model guarantees). -/
theorem is_registered_iff (links : List MacLink) (f : Fleet) (mac : String)
    (hnd : (f.nodes.map (fun n => n.system_id)).Nodup) :
    is_registered links f mac = true ↔
      ∃ l ∈ links, l.mac_address = mac ∧
        ∃ n ∈ f.nodes, n.system_id = l.node_system_id ∧
          n.status ≠ .retired := by
  unfold is_registered
  rw [List.any_eq_true]
  constructor
  · rintro ⟨l, hl, hp⟩
    rw [Bool.and_eq_true] at hp
    obtain ⟨hmac, hnode⟩ := hp
    refine ⟨l, hl, by simpa using hmac, ?_⟩
    cases hfind : f.nodes.find? (fun n => n.system_id == l.node_system_id) with
    | none => rw [hfind] at hnode; cases hnode
    | some n =>
      rw [hfind] at hnode
      have hmem := List.mem_of_find?_eq_some hfind
      have hid : n.system_id = l.node_system_id := by
        simpa using List.find?_some hfind
      refine ⟨n, hmem, hid, ?_⟩
      simpa using hnode
  · rintro ⟨l, hl, hmac, n, hn, hid, hstat⟩
    refine ⟨l, hl, ?_⟩
    rw [Bool.and_eq_true]
    refine ⟨by simpa using hmac, ?_⟩
    cases hfind : f.nodes.find? (fun x => x.system_id == l.node_system_id) with
    | none =>
      have := List.find?_eq_none.mp hfind n hn
      simp [hid] at this
    | some m =>
      have hmmem := List.mem_of_find?_eq_some hfind
      have hmid : m.system_id = l.node_system_id := by
        simpa using List.find?_some hfind
      have hmn : m = n :=
        List.inj_on_of_nodup_map hnd hmmem hn (by rw [hmid, hid])
      subst hmn
      simpa using hstat

/-- Witness for C9: one link on a Ready (non-Retired) node makes the
query answer true for exactly that address. -/
theorem is_registered_iff_witness :
    is_registered [⟨"AA:BB:CC:DD:EE:FF", "n1"⟩] ⟨[mkReady "n1"]⟩
        "AA:BB:CC:DD:EE:FF" = true :=
  (is_registered_iff [⟨"AA:BB:CC:DD:EE:FF", "n1"⟩] ⟨[mkReady "n1"]⟩
      "AA:BB:CC:DD:EE:FF" (by decide)).mpr
    ⟨⟨"AA:BB:CC:DD:EE:FF", "n1"⟩, by decide, rfl,
      mkReady "n1", by decide, rfl, by decide⟩

/-! ## C2: the existence guard of accept compares the wrong set -/

/-- C2 (code bug): with three nodes n1, n2, n3 in the store and the
batch [n1, xx] where xx names no node, `accept` by an all-powerful
admin does not fail with `MAASAPIBadRequest`: the guard compares the
batch size against the count of ALL stored ids (3 ≥ 2), passes, and the
call instead ends as a `PermissionDenied` naming "xx". -/
theorem accept_unknown_id_wrong_error :
    acceptNodes (fun _ _ => true) "admin" ["n1", "xx"]
        ⟨[mkDeclared "n1", mkDeclared "n2", mkDeclared "n3"]⟩ =
      .error (.permissionDenied (permissionDeniedMsg ["xx"])) := by
  rfl

/-! ## Accept: stepping lemma and the permission-denial case -/

theorem acceptNodes_eq (canAdmin : String → Node → Bool) (user : String)
    (ids : List String) (f : Fleet) :
    acceptNodes canAdmin user ids f =
      if (f.nodes.map (fun n => n.system_id)).dedup.length <
          ids.dedup.length then
        .error (.maasAPIBadRequest (unknownNodesMsg
          (ids.dedup.filter
            (fun i => ¬ i ∈ (f.nodes.map (fun n => n.system_id)).dedup))))
      else if (f.nodes.filter (fun n =>
          ids.dedup.contains n.system_id && canAdmin user n)).length <
            ids.dedup.length then
        .error (.permissionDenied (permissionDeniedMsg
          (ids.dedup.filter (fun i => ¬ i ∈
            (f.nodes.filter (fun n =>
              ids.dedup.contains n.system_id && canAdmin user n)).map
                (fun n => n.system_id)))))
      else
        processAccept f (f.nodes.filter (fun n =>
          ids.dedup.contains n.system_id && canAdmin user n)) := rfl

/-- C8: when every requested id names an existing node but the actor
lacks admin capability on at least one of them, `accept` fails with
`PermissionDenied` whose message lists a set of ids that is exactly the
denied ones, and no updated store is produced. -/
theorem accept_denied_permission (canAdmin : String → Node → Bool)
    (user : String) (ids : List String) (f : Fleet)
    (hnd : (f.nodes.map (fun n => n.system_id)).Nodup)
    (hex : ∀ id ∈ ids, id ∈ f.nodes.map (fun n => n.system_id))
    (hdenied : ∃ n ∈ f.nodes, n.system_id ∈ ids ∧ canAdmin user n = false) :
    ∃ ds : List String,
      acceptNodes canAdmin user ids f =
        .error (.permissionDenied (permissionDeniedMsg ds)) ∧
      ∀ i, i ∈ ds ↔ i ∈ ids ∧
        ∃ n ∈ f.nodes, n.system_id = i ∧ canAdmin user n = false := by
  obtain ⟨nden, hdenMem, hdenIds, hdenAdm⟩ := hdenied
  have hsysNodup : ids.dedup.Nodup := List.nodup_dedup ids
  have hsysSub : ids.dedup ⊆ f.nodes.map (fun n => n.system_id) := by
    intro i hi; exact hex i (List.mem_dedup.mp hi)
  have hded : (f.nodes.map (fun n => n.system_id)).dedup =
      f.nodes.map (fun n => n.system_id) := List.dedup_eq_self.mpr hnd
  have hnotlt1 : ¬ ((f.nodes.map (fun n => n.system_id)).dedup.length <
      ids.dedup.length) := by
    rw [hded]
    exact not_lt.mpr (List.subperm_of_subset hsysNodup hsysSub).length_le
  -- the permission-filter and its image in system ids
  have hmemNodes : ∀ m : Node,
      m ∈ f.nodes.filter (fun n =>
        ids.dedup.contains n.system_id && canAdmin user n) ↔
      m ∈ f.nodes ∧ m.system_id ∈ ids ∧ canAdmin user m = true := by
    intro m
    rw [List.mem_filter, Bool.and_eq_true, List.elem_iff, List.mem_dedup]
  have hokNodup : ((f.nodes.filter (fun n =>
      ids.dedup.contains n.system_id && canAdmin user n)).map
        (fun n => n.system_id)).Nodup :=
    hnd.sublist ((List.filter_sublist f.nodes).map (fun n => n.system_id))
  have hmemOk : ∀ i : String,
      i ∈ (f.nodes.filter (fun n =>
        ids.dedup.contains n.system_id && canAdmin user n)).map
          (fun n => n.system_id) ↔
      ∃ m ∈ f.nodes, m.system_id = i ∧ m.system_id ∈ ids ∧
        canAdmin user m = true := by
    intro i
    rw [List.mem_map]
    constructor
    · rintro ⟨m, hm, hmi⟩
      rw [hmemNodes] at hm
      exact ⟨m, hm.1, hmi, hm.2⟩
    · rintro ⟨m, hm, hmi, hmids, hmadm⟩
      exact ⟨m, (hmemNodes m).mpr ⟨hm, hmids, hmadm⟩, hmi⟩
  have hnotInOk : ∀ (n : Node), n ∈ f.nodes → canAdmin user n = false →
      n.system_id ∉ (f.nodes.filter (fun x =>
        ids.dedup.contains x.system_id && canAdmin user x)).map
          (fun x => x.system_id) := by
    intro n hn hadm habs
    obtain ⟨m, hmMem, hmi, -, hmadm⟩ := (hmemOk n.system_id).mp habs
    have : m = n := List.inj_on_of_nodup_map hnd hmMem hn hmi
    rw [this] at hmadm
    rw [hmadm] at hadm
    cases hadm
  have hokSub : (f.nodes.filter (fun n =>
      ids.dedup.contains n.system_id && canAdmin user n)).map
        (fun n => n.system_id) ⊆ ids.dedup := by
    intro i hi
    obtain ⟨m, -, hmi, hmids, -⟩ := (hmemOk i).mp hi
    exact List.mem_dedup.mpr (hmi ▸ hmids)
  have hlt : (f.nodes.filter (fun n =>
      ids.dedup.contains n.system_id && canAdmin user n)).length <
        ids.dedup.length := by
    have hcard : ((f.nodes.filter (fun n =>
        ids.dedup.contains n.system_id && canAdmin user n)).map
          (fun n => n.system_id)).toFinset ⊂ ids.dedup.toFinset := by
      refine (Finset.ssubset_iff_of_subset ?_).mpr
        ⟨nden.system_id, ?_, ?_⟩
      · intro x hx
        exact List.mem_toFinset.mpr (hokSub (List.mem_toFinset.mp hx))
      · exact List.mem_toFinset.mpr (List.mem_dedup.mpr hdenIds)
      · intro habs
        exact hnotInOk nden hdenMem hdenAdm (List.mem_toFinset.mp habs)
    have := Finset.card_lt_card hcard
    rw [List.toFinset_card_of_nodup hokNodup,
      List.toFinset_card_of_nodup hsysNodup, List.length_map] at this
    exact this
  refine ⟨ids.dedup.filter (fun i => ¬ i ∈
      (f.nodes.filter (fun n =>
        ids.dedup.contains n.system_id && canAdmin user n)).map
          (fun n => n.system_id)), ?_, ?_⟩
  · rw [acceptNodes_eq, if_neg hnotlt1, if_pos hlt]
  · intro i
    rw [List.mem_filter]
    simp only [decide_eq_true_eq, List.mem_dedup]
    constructor
    · rintro ⟨hiIds, hiOk⟩
      refine ⟨hiIds, ?_⟩
      obtain ⟨n, hn, hni⟩ := List.mem_map.mp (hex i hiIds)
      refine ⟨n, hn, hni, ?_⟩
      by_contra habs
      have hadm : canAdmin user n = true := Bool.not_eq_false _ |>.mp habs
      exact hiOk ((hmemOk i).mpr ⟨n, hn, hni, hni ▸ hiIds, hadm⟩)
    · rintro ⟨hiIds, n, hn, hni, hnadm⟩
      refine ⟨hiIds, ?_⟩
      intro habs
      exact hnotInOk n hn hnadm (hni ▸ habs)

/-- Witness for C8: both requested nodes exist, "n2" is not
admin-authorized, so accept fails naming exactly "n2". -/
theorem accept_denied_permission_witness :
    ∃ ds : List String,
      acceptNodes (fun _ n => n.system_id == "n1") "u" ["n1", "n2"]
          ⟨[mkDeclared "n1", mkDeclared "n2"]⟩ =
        .error (.permissionDenied (permissionDeniedMsg ds)) ∧
      ∀ i, i ∈ ds ↔ i ∈ ["n1", "n2"] ∧
        ∃ n ∈ (⟨[mkDeclared "n1", mkDeclared "n2"]⟩ : Fleet).nodes,
          n.system_id = i ∧ (fun _ n => n.system_id == "n1") "u" n = false :=
  accept_denied_permission (fun _ n => n.system_id == "n1") "u"
    ["n1", "n2"] ⟨[mkDeclared "n1", mkDeclared "n2"]⟩
    (by decide) (by decide)
    ⟨mkDeclared "n2", by decide, by decide, by decide⟩

/-! ## Accept: the successful batch -/

/-- The Ready version of a node produced by a successful acceptance. -/
def acceptedVersion (n : Node) : Node := { n with status := .ready }

theorem processAccept_ok (l : List Node) :
    ∀ f : Fleet, (∀ n ∈ l, n.status = .declared ∨ n.status = .ready) →
      processAccept f l = .ok
        (l.foldl (fun acc n =>
          if n.status = .declared then saveNode acc (acceptedVersion n)
          else acc) f,
        (l.filter (fun n => n.status == .declared)).map acceptedVersion) := by
  induction l with
  | nil => intro f _; rfl
  | cons n rest ih =>
    intro f hst
    rcases hst n (List.mem_cons_self n rest) with hd | hr
    · have he : accept_enlistment n = .ok (some (acceptedVersion n)) := by
        simp [accept_enlistment, hd, acceptedVersion]
      simp only [processAccept, he]
      rw [ih (saveNode f (acceptedVersion n))
        (fun m hm => hst m (List.mem_cons_of_mem n hm))]
      simp [List.foldl_cons, hd, List.filter_cons]
    · have hndecl : ¬ n.status = .declared := by rw [hr]; intro h; cases h
      have he : accept_enlistment n = .ok none := by
        simp [accept_enlistment, hr]
      simp only [processAccept, he]
      rw [ih f (fun m hm => hst m (List.mem_cons_of_mem n hm))]
      simp [List.foldl_cons, hndecl, List.filter_cons]

theorem acceptFold_nodes (l : List Node) :
    ∀ f : Fleet, (l.map (fun n => n.system_id)).Nodup →
      (l.foldl (fun acc n =>
        if n.status = .declared then saveNode acc (acceptedVersion n)
        else acc) f).nodes =
      f.nodes.map (fun m =>
        match l.find? (fun u =>
            (u.status == .declared) && (u.system_id == m.system_id)) with
        | some u => acceptedVersion u
        | none => m) := by
  induction l with
  | nil => intro f _; simp
  | cons n rest ih =>
    intro f hnd
    rw [List.map_cons, List.nodup_cons] at hnd
    obtain ⟨hnotin, hndrest⟩ := hnd
    by_cases hd : n.status = .declared
    · rw [List.foldl_cons, if_pos hd, ih _ hndrest]
      simp only [saveNode]
      rw [List.map_map]
      refine List.map_congr_left ?_
      intro m _
      simp only [Function.comp_apply]
      by_cases hmid : m.system_id = n.system_id
      · rw [if_pos (by simp [acceptedVersion, hmid])]
        have hfr : rest.find? (fun u =>
            (u.status == .declared) &&
              (u.system_id == (acceptedVersion n).system_id)) = none := by
          rw [List.find?_eq_none]
          intro u hu hp
          rw [Bool.and_eq_true] at hp
          have : u.system_id = n.system_id := by
            simpa [acceptedVersion] using hp.2
          exact hnotin (this ▸ List.mem_map_of_mem (fun x => x.system_id) hu)
        have hfc : (n :: rest).find? (fun u =>
            (u.status == .declared) && (u.system_id == m.system_id)) =
              some n :=
          List.find?_cons_of_pos _ (by simp [hd, hmid])
        rw [hfr, hfc]
      · rw [if_neg (by simp [acceptedVersion, hmid])]
        have hfc : (n :: rest).find? (fun u =>
            (u.status == .declared) && (u.system_id == m.system_id)) =
          rest.find? (fun u =>
            (u.status == .declared) && (u.system_id == m.system_id)) :=
          List.find?_cons_of_neg _ (by simp [hmid]; intro _; exact fun h => hmid h.symm)
        rw [hfc]
    · rw [List.foldl_cons, if_neg hd, ih f hndrest]
      refine List.map_congr_left ?_
      intro m _
      have hfc : (n :: rest).find? (fun u =>
          (u.status == .declared) && (u.system_id == m.system_id)) =
        rest.find? (fun u =>
          (u.status == .declared) && (u.system_id == m.system_id)) :=
        List.find?_cons_of_neg _ (by simp [hd])
      rw [hfc]

theorem fleet_eq_of_nodes {a : Fleet} {l : List Node} (h : a.nodes = l) :
    a = ⟨l⟩ := by
  cases a; cases h; rfl

/-- C7: when every requested id names an existing node, the actor is
admin on all of them and every named node is Declared or Ready, `accept`
succeeds: afterwards every named Declared node is Ready (other fields
kept) and every other node is untouched, and the returned changed list
is exactly the named nodes that were Declared, in their Ready form —
already-Ready nodes are skipped without error and excluded from the
result. -/
theorem accept_success_effect (canAdmin : String → Node → Bool)
    (user : String) (ids : List String) (f : Fleet)
    (hnd : (f.nodes.map (fun n => n.system_id)).Nodup)
    (hex : ∀ id ∈ ids, id ∈ f.nodes.map (fun n => n.system_id))
    (hadm : ∀ n ∈ f.nodes, n.system_id ∈ ids → canAdmin user n = true)
    (hstatus : ∀ n ∈ f.nodes, n.system_id ∈ ids →
      n.status = .declared ∨ n.status = .ready) :
    acceptNodes canAdmin user ids f =
      .ok (⟨f.nodes.map (fun m =>
          if m.system_id ∈ ids ∧ m.status = .declared then
            { m with status := .ready } else m)⟩,
        (f.nodes.filter (fun n =>
            n.system_id ∈ ids ∧ n.status = .declared)).map
          (fun n => { n with status := .ready })) := by
  have hsysNodup : ids.dedup.Nodup := List.nodup_dedup ids
  have hsysSub : ids.dedup ⊆ f.nodes.map (fun n => n.system_id) := by
    intro i hi; exact hex i (List.mem_dedup.mp hi)
  have hded : (f.nodes.map (fun n => n.system_id)).dedup =
      f.nodes.map (fun n => n.system_id) := List.dedup_eq_self.mpr hnd
  have hnotlt1 : ¬ ((f.nodes.map (fun n => n.system_id)).dedup.length <
      ids.dedup.length) := by
    rw [hded]
    exact not_lt.mpr (List.subperm_of_subset hsysNodup hsysSub).length_le
  have hmemNodes : ∀ m : Node,
      m ∈ f.nodes.filter (fun n =>
        ids.dedup.contains n.system_id && canAdmin user n) ↔
      m ∈ f.nodes ∧ m.system_id ∈ ids ∧ canAdmin user m = true := by
    intro m
    rw [List.mem_filter, Bool.and_eq_true, List.elem_iff, List.mem_dedup]
  have hokNodup : ((f.nodes.filter (fun n =>
      ids.dedup.contains n.system_id && canAdmin user n)).map
        (fun n => n.system_id)).Nodup :=
    hnd.sublist ((List.filter_sublist f.nodes).map (fun n => n.system_id))
  have hsysSubOk : ids.dedup ⊆ (f.nodes.filter (fun n =>
      ids.dedup.contains n.system_id && canAdmin user n)).map
        (fun n => n.system_id) := by
    intro i hi
    have hiIds : i ∈ ids := List.mem_dedup.mp hi
    obtain ⟨n, hn, hni⟩ := List.mem_map.mp (hex i hiIds)
    exact List.mem_map.mpr ⟨n,
      (hmemNodes n).mpr ⟨hn, hni ▸ hiIds, hadm n hn (hni ▸ hiIds)⟩, hni⟩
  have hnotlt2 : ¬ ((f.nodes.filter (fun n =>
      ids.dedup.contains n.system_id && canAdmin user n)).length <
        ids.dedup.length) := by
    refine not_lt.mpr ?_
    have := (List.subperm_of_subset hsysNodup hsysSubOk).length_le
    rwa [List.length_map] at this
  have hstNodes : ∀ n ∈ f.nodes.filter (fun n =>
      ids.dedup.contains n.system_id && canAdmin user n),
      n.status = .declared ∨ n.status = .ready := by
    intro n hn
    obtain ⟨hmem, hids, -⟩ := (hmemNodes n).mp hn
    exact hstatus n hmem hids
  rw [acceptNodes_eq, if_neg hnotlt1, if_neg hnotlt2,
    processAccept_ok _ f hstNodes]
  have hfleet : (List.foldl (fun acc n =>
      if n.status = .declared then saveNode acc (acceptedVersion n)
      else acc) f (f.nodes.filter (fun n =>
        ids.dedup.contains n.system_id && canAdmin user n))) =
      (⟨f.nodes.map (fun m =>
        if m.system_id ∈ ids ∧ m.status = .declared then
          { m with status := .ready } else m)⟩ : Fleet) := by
    refine fleet_eq_of_nodes ?_
    rw [acceptFold_nodes _ f hokNodup]
    refine List.map_congr_left ?_
    intro m hm
    by_cases hc : m.system_id ∈ ids ∧ m.status = .declared
    · have hmnodes : m ∈ f.nodes.filter (fun n =>
          ids.dedup.contains n.system_id && canAdmin user n) :=
        (hmemNodes m).mpr ⟨hm, hc.1, hadm m hm hc.1⟩
      have hsome : ((f.nodes.filter (fun n =>
          ids.dedup.contains n.system_id && canAdmin user n)).find?
            (fun u => (u.status == .declared) &&
              (u.system_id == m.system_id))).isSome :=
        List.find?_isSome.mpr ⟨m, hmnodes, by simp [hc.2]⟩
      obtain ⟨u, hu⟩ := Option.isSome_iff_exists.mp hsome
      have hpu := List.find?_some hu
      rw [Bool.and_eq_true] at hpu
      have humem : u ∈ f.nodes :=
        (List.mem_filter.mp (List.mem_of_find?_eq_some hu)).1
      have huid : u.system_id = m.system_id := by simpa using hpu.2
      have hum : u = m := List.inj_on_of_nodup_map hnd humem hm huid
      rw [hu, if_pos hc, hum]
      rfl
    · have hfn : (f.nodes.filter (fun n =>
          ids.dedup.contains n.system_id && canAdmin user n)).find?
            (fun u => (u.status == .declared) &&
              (u.system_id == m.system_id)) = none := by
        rw [List.find?_eq_none]
        intro u hu hp
        rw [Bool.and_eq_true] at hp
        obtain ⟨humem, huids, -⟩ := (hmemNodes u).mp hu
        have huid : u.system_id = m.system_id := by simpa using hp.2
        have hum : u = m := List.inj_on_of_nodup_map hnd humem hm huid
        refine hc ⟨?_, ?_⟩
        · exact huid ▸ (hum ▸ huids)
        · have : u.status = .declared := by simpa using hp.1
          exact hum ▸ this
      rw [hfn, if_neg hc]
  have hfilter : (f.nodes.filter (fun n =>
      ids.dedup.contains n.system_id && canAdmin user n)).filter
        (fun n => n.status == .declared) =
      f.nodes.filter (fun n =>
        decide (n.system_id ∈ ids ∧ n.status = .declared)) := by
    rw [List.filter_filter]
    refine List.filter_congr ?_
    intro a ha
    by_cases h1 : a.system_id ∈ ids
    · have h2 := hadm a ha h1
      have hcont : ids.dedup.contains a.system_id = true :=
        List.elem_iff.mpr (List.mem_dedup.mpr h1)
      simp only [h2, hcont, Bool.and_true]
      cases a.status <;> simp [h1]
    · have hcont : ids.dedup.contains a.system_id = false :=
        Bool.not_eq_true _ |>.mp
          (fun h => h1 (List.mem_dedup.mp (List.elem_iff.mp h)))
      simp [hcont, h1]
  rw [hfleet, hfilter]
  rfl

/-- Witness for C7: a batch of one Declared and one Ready node: the
Declared one ends Ready and is the only changed node returned. -/
theorem accept_success_effect_witness :
    acceptNodes (fun _ _ => true) "admin" ["n1", "n2"]
        ⟨[mkDeclared "n1", mkReady "n2"]⟩ =
      .ok (⟨[mkDeclared "n1", mkReady "n2"].map (fun m =>
          if m.system_id ∈ ["n1", "n2"] ∧ m.status = .declared then
            { m with status := .ready } else m)⟩,
        ([mkDeclared "n1", mkReady "n2"].filter (fun n =>
            n.system_id ∈ ["n1", "n2"] ∧ n.status = .declared)).map
          (fun n => { n with status := .ready })) :=
  accept_success_effect (fun _ _ => true) "admin" ["n1", "n2"]
    ⟨[mkDeclared "n1", mkReady "n2"]⟩
    (by decide) (by decide) (by intro n _ _; rfl) (by decide)

/-! ## C5: the ownership invariant is preserved by every operation -/

theorem fleetInv_saveNode {f : Fleet} {n' : Node}
    (hf : fleetInv f) (hn : ownerInv n') : fleetInv (saveNode f n') := by
  intro x hx
  rcases mem_saveNode hx with h | h
  · rw [h]; exact hn
  · exact hf x h.1

theorem releaseNode_ok_ownerInv {n n2 : Node}
    (h : releaseNode n = .ok n2) (hn : ownerInv n) : ownerInv n2 := by
  unfold releaseNode at h
  by_cases hr : n.status = .ready
  · simp [hr] at h
    rw [← h]
    exact hn
  · by_cases ha : n.status = .allocated ∨ n.status = .reserved
    · simp [hr, ha] at h
      rw [← h]
      simp [ownerInv, Node.release]
    · simp [hr, ha] at h

theorem ownerInv_ready_of_owner_none {n : Node}
    (hnone : n.owner.isSome = false) :
    ownerInv { n with status := .ready } := by
  simp [ownerInv, hnone]

theorem owner_none_of_inv_declared {n : Node} (hn : ownerInv n)
    (hd : n.status = .declared) : n.owner.isSome = false := by
  by_contra hs
  have : n.owner.isSome = true := Bool.not_eq_false _ |>.mp hs
  rcases hn.mp this with h | h <;> rw [hd] at h <;> cases h

theorem processAccept_inv (l : List Node) :
    ∀ (f f' : Fleet) (ch : List Node), fleetInv f →
      (∀ n ∈ l, ownerInv n) → processAccept f l = .ok (f', ch) →
      fleetInv f' := by
  induction l with
  | nil =>
    intro f f' ch hf _ h
    simp only [processAccept] at h
    cases h
    exact hf
  | cons n rest ih =>
    intro f f' ch hf hl h
    simp only [processAccept] at h
    cases he : accept_enlistment n with
    | error e => rw [he] at h; cases h
    | ok o =>
      rw [he] at h
      cases o with
      | none =>
        exact ih f f' ch hf (fun m hm => hl m (List.mem_cons_of_mem n hm)) h
      | some n2 =>
        have hinv2 : ownerInv n2 := by
          unfold accept_enlistment at he
          by_cases hd : n.status = .declared
          · simp [hd] at he
            rw [← he]
            exact ownerInv_ready_of_owner_none
              (owner_none_of_inv_declared (hl n (List.mem_cons_self n rest)) hd)
          · by_cases hrdy : n.status = .ready
            · simp [hd, hrdy] at he
            · simp [hd, hrdy] at he
        have h2 : (match processAccept (saveNode f n2) rest with
            | Except.error e =>
              (Except.error e : Except ApiError (Fleet × List Node))
            | Except.ok (f2, changed) => Except.ok (f2, n2 :: changed)) =
            Except.ok (f', ch) := h
        cases hrec : processAccept (saveNode f n2) rest with
        | error e => rw [hrec] at h2; cases h2
        | ok p =>
          obtain ⟨f2, ch2⟩ := p
          rw [hrec] at h2
          simp only [Except.ok.injEq, Prod.mk.injEq] at h2
          rw [← h2.1]
          exact ih (saveNode f n2) f2 ch2 (fleetInv_saveNode hf hinv2)
            (fun m hm => hl m (List.mem_cons_of_mem n hm)) hrec

/-- C5: each lifecycle operation (enlist, accept, acquire, release, the
commissioning sweep, start, stop), when it succeeds, carries the
invariant \"owner is non-null iff status is Allocated or Reserved\" from
the store before to the store after. -/
theorem lifecycle_preserves_owner_invariant (op : Op) (f f' : Fleet)
    (hinv : fleetInv f) (h : applyOp op f = .ok f') : fleetInv f' := by
  cases op with
  | enlist su sid hname arch now =>
    simp only [applyOp, newNode] at h
    have hinv1 : fleetInv ⟨f.nodes ++ [create_node sid hname arch now]⟩ := by
      intro x hx
      rcases List.mem_append.mp hx with hx | hx
      · exact hinv x hx
      · rw [List.mem_singleton.mp hx]
        simp [ownerInv, create_node]
    cases su with
    | false =>
      simp only [Bool.false_eq_true, if_false, Except.map] at h
      cases h
      exact hinv1
    | true =>
      simp only [if_true, accept_enlistment, create_node] at h
      simp only [Except.map] at h
      cases h
      exact fleetInv_saveNode hinv1
        (ownerInv_ready_of_owner_none
          (n := create_node sid hname arch now) rfl)
  | accept ca u ids =>
    simp only [applyOp] at h
    cases hacc : acceptNodes ca u ids f with
    | error e => rw [hacc] at h; cases h
    | ok p =>
      obtain ⟨f2, ch⟩ := p
      rw [hacc] at h
      simp only [Except.map] at h
      cases h
      rw [acceptNodes_eq] at hacc
      split at hacc
      · cases hacc
      · split at hacc
        · cases hacc
        · exact processAccept_inv _ f f' ch hinv
            (fun m hm => hinv m (List.mem_filter.mp hm).1) hacc
  | acquire cv u np =>
    simp only [applyOp] at h
    cases hacq : acquireNode cv u np f with
    | error e => rw [hacq] at h; cases h
    | ok p =>
      obtain ⟨f2, n2⟩ := p
      rw [hacq] at h
      simp only [Except.map] at h
      cases h
      obtain ⟨n, -, -, hn2, hf2⟩ := acquire_ok_elim hacq
      rw [hf2]
      refine fleetInv_saveNode hinv ?_
      rw [hn2]
      simp [ownerInv, Node.acquire]
  | release ce u sid =>
    simp only [applyOp, releaseHandler] at h
    cases hfind : f.nodes.find? (fun n => n.system_id == sid) with
    | none => rw [hfind] at h; cases h
    | some n =>
      rw [hfind] at h
      have h2 : Except.map Prod.fst
          (if ce u n = true then
            match releaseNode n with
            | Except.error e => (Except.error e : Except ApiError (Fleet × Node))
            | Except.ok n' => Except.ok (saveNode f n', n')
          else .error (.permissionDenied "No permission to edit this node.")) =
          Except.ok f' := h
      by_cases hce : ce u n = true
      · rw [if_pos hce] at h2
        cases hrel : releaseNode n with
        | error e => rw [hrel] at h2; cases h2
        | ok n2 =>
          rw [hrel] at h2
          simp only [Except.map] at h2
          cases h2
          exact fleetInv_saveNode hinv (releaseNode_ok_ownerInv hrel
            (hinv n (List.mem_of_find?_eq_some hfind)))
      · rw [if_neg hce] at h2; cases h2
  | sweep t now =>
    simp only [applyOp] at h
    cases h
    intro x hx
    simp only [check_commissioning, List.mem_map] at hx
    obtain ⟨m, hm, hval⟩ := hx
    by_cases hc : m.status = .commissioning ∧ m.updated ≤ now - t
    · rw [if_pos hc] at hval
      rw [← hval]
      have hnone : m.owner.isSome = false := by
        by_contra hs
        have : m.owner.isSome = true := Bool.not_eq_false _ |>.mp hs
        rcases (hinv m hm).mp this with hh | hh <;>
          rw [hc.1] at hh <;> cases hh
      simp [ownerInv, hnone]
    · rw [if_neg hc] at hval
      rw [← hval]
      exact hinv m hm
  | start ce u ids =>
    simp only [applyOp, startStopNodes] at h
    split at h
    · cases h
    · simp only [Except.map] at h
      cases h
      exact hinv
  | stop ce u ids =>
    simp only [applyOp, startStopNodes] at h
    split at h
    · cases h
    · simp only [Except.map] at h
      cases h
      exact hinv

/-- Witness for C5: the sweep over a store holding one stale
Commissioning node preserves the invariant. -/
theorem lifecycle_preserves_owner_invariant_witness :
    fleetInv (check_commissioning 30 100 ⟨[mkCommissioning "n1" 10]⟩) :=
  lifecycle_preserves_owner_invariant (.sweep 30 100)
    ⟨[mkCommissioning "n1" 10]⟩
    (check_commissioning 30 100 ⟨[mkCommissioning "n1" 10]⟩)
    (by intro n hn; rw [List.mem_singleton.mp hn]; simp [ownerInv, mkCommissioning])
    rfl

end Maas
